import Mathlib

/-!
# Verification of the MEDIA_MIND PDF extraction and chunking pipeline

Shallow embedding of `scripts/extract_pdf.py`.  External engines (fitz,
pdfplumber, pytesseract, camelot, spaCy) are modelled as inputs: each page
carries the value or exception every external call would return, and the
sentence segmenter is an abstract function.  The control flow of
`process_pdf` and of the aggregation loop in `main` is translated
statement by statement.
-/

namespace MediaMind

/-- Constant `WINDOW` from `extract_pdf.py`: sliding-window size in sentences. -/
def WINDOW : Nat := 5

/-- Constant `OVERLAP` from `extract_pdf.py`: overlap between consecutive windows. -/
def OVERLAP : Nat := 2

/-- Constant `STEP = WINDOW - OVERLAP` from `extract_pdf.py`. -/
def STEP : Nat := WINDOW - OVERLAP

/-- The ambient capability flags `HAS_REPAIR`, `HAS_PLUMBER`, `HAS_OCR`,
`HAS_TABLES` probed at import time in `extract_pdf.py`. -/
structure Caps where
  hasRepair : Bool
  hasPlumber : Bool
  hasOcr : Bool
  hasTables : Bool

/-- Outcomes of the external engine calls for one page.  Each field holds the
value (`.ok`) or the exception (`.error`) the corresponding Python call
produces:
* `primaryText`: `doc.load_page(page_no)` plus `page.get_text()` via fitz;
* `ocrImages`: one entry per embedded image visited by the primary-path OCR
  loop, the result of image decoding plus `pytesseract.image_to_string`;
* `primaryTables`: one entry per table of the camelot stage — the
  serialization outcome of each discovered table in order, a failure of the
  `read_pdf` call itself standing as a leading `.error`; the appending loop
  keeps the tables serialized before the first failure, since the inner
  handler swallows the exception;
* `fallbackText`: `pl.pages[page_no]` plus `pg.extract_text() or ""` via
  pdfplumber;
* `fallbackTables`: `pg.extract_tables()` plus row serialization;
* `ocrImagesFallback`: one entry per image visited by the fallback OCR loop. -/
structure PageData where
  primaryText : Except String String
  ocrImages : List (Except String String)
  primaryTables : List (Except String String)
  fallbackText : Except String String
  fallbackTables : Except String (List String)
  ocrImagesFallback : List (Except String String)

/-- The OCR loop (`for img in …: text += "\n" + pytesseract.image_to_string`):
each recognised string is appended to the running text; an exception at any
image escapes the loop, since the source has no per-image handler. -/
def ocrFold : String → List (Except String String) → Except String String
  | t, [] => .ok t
  | t, .ok s :: rs => ocrFold (t ++ "\n" ++ s) rs
  | _, .error e :: _ => .error e

/-- The camelot stage (`try: … for t in tbls: tables.append(…) except: pass`):
tables are appended until the first failure, whose exception the inner
handler swallows, truncating the rest. -/
def camelotFold : List (Except String String) → List String
  | [] => []
  | .ok s :: rs => s :: camelotFold rs
  | .error _ :: _ => []

/-- The body of the primary `try` block of the page loop: fitz text, then the
OCR overlay when `HAS_OCR`, then camelot tables when `HAS_TABLES` — the
camelot stage sits in an inner `try/except Exception: pass`, so a failure
there only truncates the table list. -/
def primaryAttempt (caps : Caps) (pd : PageData) :
    Except String (String × List String) :=
  match pd.primaryText with
  | .error e => .error e
  | .ok t0 =>
    match (if caps.hasOcr then ocrFold t0 pd.ocrImages else .ok t0) with
    | .error e => .error e
    | .ok t =>
      let tables :=
        if caps.hasTables then camelotFold pd.primaryTables else []
      .ok (t, tables)

/-- The body of the fallback `try` block (`with pdfplumber.open(...)`):
pdfplumber text, then tables when `HAS_TABLES`, then per-image OCR when
`HAS_OCR`; an exception anywhere in the block escapes to the single
`except Exception as e2` handler. -/
def fallbackAttempt (caps : Caps) (pd : PageData) :
    Except String (String × List String) :=
  match pd.fallbackText with
  | .error e => .error e
  | .ok t0 =>
    match (if caps.hasTables then pd.fallbackTables else .ok []) with
    | .error e => .error e
    | .ok tables =>
      match (if caps.hasOcr then ocrFold t0 pd.ocrImagesFallback else .ok t0) with
      | .error e => .error e
      | .ok t => .ok (t, tables)

/-- Terminal state of the per-page extraction state machine. -/
inductive PageOutcome where
  | done (text : String) (tables : List String)
  | skipped (err : String)

/-- Tiered per-page extraction: primary attempt; on its failure one fallback
attempt when `HAS_PLUMBER`, the two error strings combined as `"e / e2"`;
without pdfplumber the primary error alone is recorded. -/
def extractPage (caps : Caps) (pd : PageData) : PageOutcome :=
  match primaryAttempt caps pd with
  | .ok (t, tbls) => .done t tbls
  | .error e =>
    if caps.hasPlumber then
      match fallbackAttempt caps pd with
      | .ok (t, tbls) => .done t tbls
      | .error e2 => .skipped (e ++ " / " ++ e2)
    else
      .skipped e

/-- One output record of `all_chunks.json`.  `loc` is the Python dict of
integer-valued location fields in insertion order.  As in the source,
`table_no` (when present) is a top-level field of the record, not a `loc`
entry, and every chunk carries the page's `tables` list because the `base`
dict embeds it. -/
structure Chunk where
  chunk_id : String
  source : String
  doc_path : String
  loc : List (String × Nat)
  tables : List String
  elem_type : String
  table_no : Option Nat
  text : String
deriving DecidableEq

/-- The start indices `range(0, n, STEP)` of the chunk loop. -/
def chunkStarts (n : Nat) : List Nat :=
  List.range' 0 ((n + STEP - 1) / STEP) STEP

/-- The slice `sents[i : i + WINDOW]`. -/
def window (sents : List String) (i : Nat) : List String :=
  (sents.drop i).take WINDOW

/-- The text chunks the page loop appends for one non-skipped page: one
sliding-window chunk per start index when segmentation is non-empty, else a
single raw-text chunk whose `loc` has no sentence fields.  `cid` is the
`uuid4` drawn once for the page's `base` dict. -/
def textChunks (cid docPath : String) (pageNo : Nat) (text : String)
    (sents : List String) (tables : List String) : List Chunk :=
  if sents ≠ [] then
    (chunkStarts sents.length).map (fun i =>
      { chunk_id := cid, source := "pdf", doc_path := docPath,
        loc := [("page", pageNo + 1), ("start_sent", i + 1),
                ("end_sent", i + (window sents i).length)],
        tables := tables, elem_type := "text", table_no := none,
        text := String.intercalate " " (window sents i) })
  else
    [{ chunk_id := cid, source := "pdf", doc_path := docPath,
       loc := [("page", pageNo + 1)], tables := tables,
       elem_type := "text", table_no := none, text := text }]

/-- The table chunks appended after the text chunks: one per recovered table,
in discovery order, with the table's index as the top-level `table_no`. -/
def tableChunks (cid docPath : String) (pageNo : Nat)
    (tables : List String) : List Chunk :=
  tables.enum.map (fun p =>
    { chunk_id := cid, source := "pdf", doc_path := docPath,
      loc := [("page", pageNo + 1)], tables := tables,
      elem_type := "table", table_no := some p.1, text := p.2 })

/-- Everything one non-skipped page appends to `chunks`: text chunks first,
then table chunks. -/
def pageChunks (cid docPath : String) (pageNo : Nat) (text : String)
    (sents : List String) (tables : List String) : List Chunk :=
  textChunks cid docPath pageNo text sents tables ++
    tableChunks cid docPath pageNo tables

/-- A per-page failure record of `skipped_pages.json`:
`(document name, 1-based page number, error string)`. -/
abbrev PageFailure := String × Nat × String

/-- One iteration of the page loop of `process_pdf`: extract, then segment
the final text and chunk, or record a single per-page failure (`continue`)
contributing no chunks. -/
def processPage (caps : Caps) (segment : String → List String)
    (docName docPath cid : String) (pageNo : Nat) (pd : PageData) :
    List Chunk × List PageFailure :=
  match extractPage caps pd with
  | .skipped e => ([], [(docName, pageNo + 1, e)])
  | .done text tables =>
      (pageChunks cid docPath pageNo text (segment text) tables, [])

/-- The page loop of `process_pdf` from a given 0-based page number, with
`gen` supplying the per-page `uuid4` draws. -/
def processPages (caps : Caps) (segment : String → List String)
    (docName docPath : String) (gen : Nat → String) :
    Nat → List PageData → List Chunk × List PageFailure
  | _, [] => ([], [])
  | pageNo, pd :: rest =>
    let hd := processPage caps segment docName docPath (gen pageNo) pageNo pd
    let tl := processPages caps segment docName docPath gen (pageNo + 1) rest
    (hd.1 ++ tl.1, hd.2 ++ tl.2)

/-- One discovered document: its file name and path, the outcome of opening
it with fitz (after the silent optional repair, whose failure only means the
original bytes are used), and the engine outcomes of its pages. -/
structure DocInput where
  name : String
  path : String
  openResult : Except String Unit
  pages : List PageData

/-- Function `process_pdf`: raises (`.error`) when the document cannot be opened,
otherwise processes every page in order and returns
`(chunks, skipped_pages)`. -/
def process_pdf (caps : Caps) (segment : String → List String)
    (gen : Nat → String) (d : DocInput) :
    Except String (List Chunk × List PageFailure) :=
  match d.openResult with
  | .error e => .error e
  | .ok _ => .ok (processPages caps segment d.name d.path gen 0 d.pages)

/-- The three artifacts `main` writes: `all_chunks.json`,
`skipped_pdfs.json`, `skipped_pages.json`. -/
structure RunOutput where
  all_chunks : List Chunk
  skipped_pdfs : List (String × String)
  skipped_pages : List PageFailure
deriving DecidableEq

/-- One iteration of the `as_completed` loop of `main`: a successful task
extends the chunk and per-page lists, a raising task appends exactly one
`(name, error)` record to `skipped_pdfs`. -/
def aggStep (acc : RunOutput)
    (r : String × Except String (List Chunk × List PageFailure)) : RunOutput :=
  match r.2 with
  | .ok res =>
    { acc with all_chunks := acc.all_chunks ++ res.1,
               skipped_pages := acc.skipped_pages ++ res.2 }
  | .error e =>
    { acc with skipped_pdfs := acc.skipped_pdfs ++ [(r.1, e)] }

/-- The whole aggregation loop of `main`, over task results listed in
completion order. -/
def aggregate
    (rs : List (String × Except String (List Chunk × List PageFailure))) :
    RunOutput :=
  rs.foldl aggStep ⟨[], [], []⟩

/-- One full run of `main`: the documents in task-completion order, task `k`
drawing its uuids from the stream `g k`. -/
def runAll (caps : Caps) (segment : String → List String)
    (ds : List DocInput) (g : Nat → Nat → String) : RunOutput :=
  aggregate (ds.enum.map (fun kd =>
    (kd.2.name, process_pdf caps segment (g kd.1) kd.2)))

/-- Forget the `chunk_id` field (comparison "modulo chunk_id values"). -/
def eraseId (c : Chunk) : Chunk := { c with chunk_id := "" }

/-- Walk emitted windows in order, drop from each the prefix of sentences
already covered by earlier windows, and concatenate; `c` counts the
sentences covered so far. -/
def reconstructAux (sents : List String) : Nat → List Nat → List String
  | _, [] => []
  | c, i :: rest =>
    (window sents i).drop (c - i) ++
      reconstructAux sents (max c (i + (window sents i).length)) rest

/-! ## Basic facts about the sliding window -/

theorem stepVal : STEP = 3 := rfl

theorem windowVal : WINDOW = 5 := rfl

theorem length_chunkStarts (n : Nat) :
    (chunkStarts n).length = (n + STEP - 1) / STEP := by
  simp [chunkStarts]

theorem mem_chunkStarts {i n : Nat} :
    i ∈ chunkStarts n ↔ (∃ k, i = STEP * k) ∧ i < n := by
  rw [chunkStarts, List.mem_range', stepVal]
  constructor
  · rintro ⟨k, hk, rfl⟩
    exact ⟨⟨k, by omega⟩, by omega⟩
  · rintro ⟨⟨k, rfl⟩, hlt⟩
    exact ⟨k, by omega, by omega⟩

theorem chunkStarts_small {n : Nat} (h1 : 1 ≤ n) (h2 : n ≤ STEP) :
    chunkStarts n = [0] := by
  have h3 : STEP = 3 := rfl
  rw [h3] at h2
  unfold chunkStarts
  rw [h3]
  have hc : (n + 3 - 1) / 3 = 1 := by omega
  rw [hc]
  rfl

theorem chunkStarts_cons {n : Nat} (h : STEP < n) :
    chunkStarts n = 0 :: (chunkStarts (n - STEP)).map (fun i => STEP + i) := by
  have h3 : STEP = 3 := rfl
  rw [h3] at h
  unfold chunkStarts
  rw [h3]
  have hc : (n + 3 - 1) / 3 = ((n - 3) + 3 - 1) / 3 + 1 := by omega
  rw [hc, List.range'_succ, List.map_add_range']

theorem length_window (sents : List String) (i : Nat) :
    (window sents i).length = min WINDOW (sents.length - i) := by
  simp [window]

theorem window_zero (sents : List String) :
    window sents 0 = sents.take WINDOW := by
  simp [window]

/-- C1: proved. For a page whose final text segments into a non-empty sentence
list, the chunker emits exactly one text chunk per start index of
`chunkStarts` — the multiples of `STEP` below the sentence count — each with
1-based `start_sent = i+1`, `end_sent = min (i+WINDOW) N` and the window's
sentences joined as its text; in particular a 7-sentence page yields three
chunks with sentence ranges `[1,5]`, `[4,7]`, `[7,7]`. -/
theorem chunker_windows_c1 (cid docPath : String) (pageNo : Nat)
    (text : String) (sents tables : List String) (h : sents ≠ []) :
    textChunks cid docPath pageNo text sents tables
      = (chunkStarts sents.length).map (fun i =>
          ({ chunk_id := cid, source := "pdf", doc_path := docPath,
             loc := [("page", pageNo + 1), ("start_sent", i + 1),
                     ("end_sent", min (i + WINDOW) sents.length)],
             tables := tables, elem_type := "text", table_no := none,
             text := String.intercalate " " (window sents i) } : Chunk))
    ∧ (∀ i, i ∈ chunkStarts sents.length ↔
        (∃ k, i = STEP * k) ∧ i < sents.length)
    ∧ (textChunks "u0" "doc" 0 "t"
         ["s1", "s2", "s3", "s4", "s5", "s6", "s7"] []).map (fun c => c.loc)
        = [[("page", 1), ("start_sent", 1), ("end_sent", 5)],
           [("page", 1), ("start_sent", 4), ("end_sent", 7)],
           [("page", 1), ("start_sent", 7), ("end_sent", 7)]] := by
  refine ⟨?_, fun i => mem_chunkStarts, by rfl⟩
  rw [textChunks, if_pos h]
  apply List.map_congr_left
  intro i hi
  have hlt : i < sents.length := (mem_chunkStarts.mp hi).2
  have hend : i + (window sents i).length = min (i + WINDOW) sents.length := by
    rw [length_window]
    omega
  rw [hend]

/-- Witness for C1: the 7-sentence worked example. -/
theorem chunker_windows_c1_witness :
    textChunks "u0" "doc" 0 "t" ["s1", "s2", "s3", "s4", "s5", "s6", "s7"] []
      = (chunkStarts
          (["s1", "s2", "s3", "s4", "s5", "s6", "s7"] : List String).length).map
          (fun i =>
            ({ chunk_id := "u0", source := "pdf", doc_path := "doc",
               loc := [("page", 1), ("start_sent", i + 1),
                       ("end_sent", min (i + WINDOW)
                         (["s1", "s2", "s3", "s4", "s5", "s6", "s7"] :
                           List String).length)],
               tables := [], elem_type := "text", table_no := none,
               text := String.intercalate " "
                 (window ["s1", "s2", "s3", "s4", "s5", "s6", "s7"] i) } :
               Chunk)) :=
  (chunker_windows_c1 "u0" "doc" 0 "t"
    ["s1", "s2", "s3", "s4", "s5", "s6", "s7"] [] (by decide)).1

/-! ## Reconstruction of the sentence sequence (C9) -/

theorem reconstructAux_shift (sents : List String) (L : List Nat) :
    ∀ c : Nat, STEP ≤ c →
      reconstructAux sents c (L.map (fun i => STEP + i))
        = reconstructAux (sents.drop STEP) (c - STEP) L := by
  induction L with
  | nil => intro c _; rfl
  | cons i rest ih =>
    intro c hc
    simp only [List.map_cons, reconstructAux]
    have hwin : window sents (STEP + i) = window (sents.drop STEP) i := by
      simp [window, Nat.add_comm]
    rw [hwin]
    have h1 : c - (STEP + i) = c - STEP - i := by omega
    rw [h1]
    congr 1
    rw [ih (max c (STEP + i + (window (sents.drop STEP) i).length))
      (le_trans hc (Nat.le_max_left _ _))]
    congr 1
    omega

theorem take_drop_glue (l : List String) (c : Nat) (hc : c ≤ WINDOW) :
    (l.take WINDOW).drop c ++ l.drop (min WINDOW l.length) = l.drop c := by
  have hdropEq : l.drop (min WINDOW l.length) = l.drop WINDOW := by
    rcases Nat.le_total WINDOW l.length with h | h
    · rw [Nat.min_eq_left h]
    · rw [Nat.min_eq_right h, List.drop_eq_nil_of_le h,
        List.drop_eq_nil_of_le (Nat.le_refl _)]
  have hcw : c + (WINDOW - c) = WINDOW := by omega
  rw [hdropEq]
  have hdt : (l.take WINDOW).drop c = (l.drop c).take (WINDOW - c) := by
    conv_lhs => rw [← hcw]
    exact (List.take_drop c (WINDOW - c) l).symm
  rw [hdt]
  conv_rhs => rw [← List.take_append_drop (WINDOW - c) (l.drop c)]
  congr 1
  rw [List.drop_drop]
  congr 1
  omega

theorem reconstructAux_chunkStarts :
    ∀ (n : Nat) (sents : List String), sents.length = n → 1 ≤ n →
      ∀ c : Nat, c ≤ min WINDOW n →
        reconstructAux sents c (chunkStarts n) = sents.drop c := by
  intro n
  induction n using Nat.strong_induction_on with
  | _ n ih =>
    intro sents hlen hn c hc
    have h3 : STEP = 3 := rfl
    have h5 : WINDOW = 5 := rfl
    by_cases hsmall : n ≤ STEP
    · rw [chunkStarts_small hn hsmall]
      simp only [reconstructAux]
      have hwin : window sents 0 = sents := by
        rw [window_zero]
        exact List.take_of_length_le (by omega)
      rw [hwin]
      simp
    · push_neg at hsmall
      rw [chunkStarts_cons hsmall]
      simp only [reconstructAux]
      have hmax : max c (0 + (window sents 0).length) = min WINDOW n := by
        rw [length_window, hlen]
        omega
      rw [hmax]
      rw [reconstructAux_shift sents _ (min WINDOW n) (by omega)]
      have ihres := ih (n - STEP) (by omega) (sents.drop STEP)
        (by simp [hlen]) (by omega) (min WINDOW n - STEP) (by omega)
      rw [ihres, List.drop_drop]
      have hstep : STEP + (min WINDOW n - STEP) = min WINDOW n := by omega
      rw [hstep, window_zero, Nat.sub_zero]
      have hg := take_drop_glue sents c (by omega)
      rw [hlen] at hg
      exact hg

theorem chunk_count_mult (n : Nat) :
    ((List.range n).filter (fun i => i % STEP == 0)).length
      = (n + STEP - 1) / STEP := by
  induction n with
  | zero => rfl
  | succ m ih =>
    rw [List.range_succ, List.filter_append, List.length_append, ih]
    have h3 : STEP = 3 := rfl
    rw [h3]
    simp only [List.filter_cons, List.filter_nil]
    by_cases h : m % 3 = 0
    · simp only [h3, h]
      simp
      omega
    · have hb : (m % 3 == 0) = false := by
        simp [h]
      rw [hb]
      simp
      omega

/-- C9: proved. For a non-empty sentence sequence the number of text chunks
equals the number of indices `i ∈ {0, STEP, 2*STEP, …}` with `i < N`, and
walking the emitted windows in order while dropping from each the prefix
already covered reconstructs the sentence sequence exactly. -/
theorem window_reconstruction_c9 (cid docPath : String) (pageNo : Nat)
    (text : String) (sents tables : List String) (h : sents ≠ []) :
    (textChunks cid docPath pageNo text sents tables).length
      = ((List.range sents.length).filter (fun i => i % STEP == 0)).length
    ∧ reconstructAux sents 0 (chunkStarts sents.length) = sents := by
  constructor
  · rw [textChunks, if_pos h, List.length_map, length_chunkStarts,
      chunk_count_mult]
  · have h1 : 1 ≤ sents.length := List.length_pos.mpr h
    have hr := reconstructAux_chunkStarts sents.length sents rfl h1 0
      (Nat.zero_le _)
    simpa using hr

/-- Witness for C9 at a concrete 4-sentence page (where the last window is
clipped and fully overlapped after its first sentence). -/
theorem window_reconstruction_c9_witness :
    (textChunks "u1" "doc" 0 "t" ["a", "b", "c", "d"] []).length
      = ((List.range (["a", "b", "c", "d"] : List String).length).filter
          (fun i => i % STEP == 0)).length
    ∧ reconstructAux ["a", "b", "c", "d"] 0
        (chunkStarts (["a", "b", "c", "d"] : List String).length)
        = ["a", "b", "c", "d"] :=
  window_reconstruction_c9 "u1" "doc" 0 "t" ["a", "b", "c", "d"] []
    (by decide)

/-! ## Table chunks: content, placement and ordering (C7, C8) -/

theorem tableChunks_map_table_no (cid docPath : String) (pageNo : Nat)
    (tables : List String) :
    (tableChunks cid docPath pageNo tables).map Chunk.table_no
      = (List.range tables.length).map some := by
  rw [tableChunks, List.map_map, ← List.enum_map_fst tables, List.map_map]
  exact List.map_congr_left (fun a _ => rfl)

theorem tableChunks_filterMap_table_no (cid docPath : String) (pageNo : Nat)
    (tables : List String) :
    (tableChunks cid docPath pageNo tables).filterMap Chunk.table_no
      = List.range tables.length := by
  rw [tableChunks, List.filterMap_map]
  show List.filterMap (some ∘ Prod.fst) tables.enum = _
  rw [List.filterMap_eq_map, List.enum_map_fst]

/-- C8: proved. For every page: the page's chunks are its text chunks followed by
its table chunks, every text chunk has `elem_type = "text"`, every table
chunk has `elem_type = "table"`, and the `table_no` values run `0, 1, 2, …`
in table-discovery order, hence are strictly increasing. -/
theorem emission_order_c8 (cid docPath : String) (pageNo : Nat)
    (text : String) (sents tables : List String) :
    pageChunks cid docPath pageNo text sents tables
      = textChunks cid docPath pageNo text sents tables
        ++ tableChunks cid docPath pageNo tables
    ∧ (textChunks cid docPath pageNo text sents tables).map Chunk.elem_type
        = List.replicate
            (textChunks cid docPath pageNo text sents tables).length "text"
    ∧ (tableChunks cid docPath pageNo tables).map Chunk.elem_type
        = List.replicate tables.length "table"
    ∧ (tableChunks cid docPath pageNo tables).map Chunk.table_no
        = (List.range tables.length).map some
    ∧ List.Pairwise (fun a b => a < b)
        ((tableChunks cid docPath pageNo tables).filterMap Chunk.table_no) := by
  refine ⟨rfl, ?_, ?_, tableChunks_map_table_no cid docPath pageNo tables, ?_⟩
  · rw [List.eq_replicate_iff]
    refine ⟨List.length_map _ _, ?_⟩
    intro b hb
    rw [List.mem_map] at hb
    obtain ⟨c, hc, rfl⟩ := hb
    rw [textChunks] at hc
    split at hc
    · obtain ⟨i, _, rfl⟩ := List.mem_map.mp hc
      rfl
    · rw [List.mem_singleton] at hc
      subst hc
      rfl
  · rw [List.eq_replicate_iff]
    constructor
    · rw [List.length_map, tableChunks, List.length_map, List.enum_length]
    · intro b hb
      rw [List.mem_map] at hb
      obtain ⟨c, hc, rfl⟩ := hb
      rw [tableChunks] at hc
      obtain ⟨p, _, rfl⟩ := List.mem_map.mp hc
      rfl
  · rw [tableChunks_filterMap_table_no]
    exact List.pairwise_lt_range tables.length

/-- C7 counterexample: the claim is false on the code at a concrete page with one sentence and one
recovered table: the table chunk's `loc` holds only the page number — the
table index is not inside `loc` but is the top-level `table_no` field. -/
theorem table_loc_cex_c7 :
    (pageChunks "u2" "doc" 0 "s." ["s."] ["a,b"]).map
        (fun c => (c.elem_type, c.loc, c.table_no))
      = [("text", [("page", 1), ("start_sent", 1), ("end_sent", 1)], none),
         ("table", [("page", 1)], some 0)]
    ∧ (pageChunks "u2" "doc" 0 "s." ["s."] ["a,b"]).map
        (fun c => List.lookup "table_no" c.loc)
      = [none, none] := by
  constructor
  · rfl
  · rfl

/-- C7 as amended: Every table chunk records the table's index as the
top-level `table_no` field; its `loc` is `{page}` only and in particular
holds no `table_no` entry (text chunks do keep their sentence range inside
`loc`). -/
theorem table_loc_top_level_c7 (cid docPath : String) (pageNo : Nat)
    (tables : List String) :
    (tableChunks cid docPath pageNo tables).map Chunk.loc
        = List.replicate tables.length [("page", pageNo + 1)]
    ∧ (tableChunks cid docPath pageNo tables).map
        (fun c => List.lookup "table_no" c.loc)
        = List.replicate tables.length none
    ∧ (tableChunks cid docPath pageNo tables).map Chunk.table_no
        = (List.range tables.length).map some := by
  refine ⟨?_, ?_, tableChunks_map_table_no cid docPath pageNo tables⟩
  · rw [List.eq_replicate_iff]
    constructor
    · rw [List.length_map, tableChunks, List.length_map, List.enum_length]
    · intro b hb
      obtain ⟨c, hc, rfl⟩ := List.mem_map.mp hb
      obtain ⟨p, _, rfl⟩ := List.mem_map.mp hc
      rfl
  · rw [List.eq_replicate_iff]
    constructor
    · rw [List.length_map, tableChunks, List.length_map, List.enum_length]
    · intro b hb
      obtain ⟨c, hc, rfl⟩ := List.mem_map.mp hb
      obtain ⟨p, _, rfl⟩ := List.mem_map.mp hc
      rfl

/-! ## Tiered extraction and enrichment failures (C4, C5, C6) -/

/-- C4: proved. The tiered state machine: when the primary attempt fails with
`e` and pdfplumber is available, the single fallback attempt decides the
page — success gives `Done` with the fallback's text and tables, failure
`e2` skips the page with exactly one record carrying the combined error
`"e / e2"` and zero chunks; without pdfplumber the primary failure skips the
page directly with a record carrying `e` alone. -/
theorem tiered_fallback_c4 (caps : Caps) (segment : String → List String)
    (docName docPath cid : String) (pageNo : Nat) (pd : PageData)
    (e : String) (hp : primaryAttempt caps pd = .error e) :
    (caps.hasPlumber = true →
      (∀ t tbls, fallbackAttempt caps pd = .ok (t, tbls) →
        extractPage caps pd = .done t tbls)
      ∧ (∀ e2, fallbackAttempt caps pd = .error e2 →
          processPage caps segment docName docPath cid pageNo pd
            = ([], [(docName, pageNo + 1, e ++ " / " ++ e2)])))
    ∧ (caps.hasPlumber = false →
        processPage caps segment docName docPath cid pageNo pd
          = ([], [(docName, pageNo + 1, e)])) := by
  constructor
  · intro hpl
    constructor
    · intro t tbls hf
      simp [extractPage, hp, hpl, hf]
    · intro e2 hf
      simp [processPage, extractPage, hp, hpl, hf]
  · intro hpl
    simp [processPage, extractPage, hp, hpl]

/-- Witness for C4: a page whose primary attempt raises, with no fallback
capability, is skipped with the primary error alone. -/
theorem tiered_fallback_c4_witness :
    processPage ⟨false, false, false, false⟩ (fun _ => []) "d.pdf" "p/d.pdf"
        "u5" 0 ⟨.error "boom", [], [], .ok "", .ok [], []⟩
      = ([], [("d.pdf", 1, "boom")]) :=
  (tiered_fallback_c4 ⟨false, false, false, false⟩ (fun _ => []) "d.pdf"
    "p/d.pdf" "u5" 0 ⟨.error "boom", [], [], .ok "", .ok [], []⟩
    "boom" rfl).2 rfl

/-- C5 counterexample: the claim is false on the code — a page whose fitz text extraction succeeds
but whose OCR enrichment of one embedded image raises is NOT kept — the
exception escapes the primary `try` block and, with no fallback available,
the page is skipped and a per-page failure record is produced, the extracted
text lost. -/
theorem ocr_failure_cex_c5 :
    extractPage ⟨false, false, true, false⟩
        ⟨.ok "Page text.", [.error "ocr boom"], [], .ok "", .ok [], []⟩
      = .skipped "ocr boom"
    ∧ processPage ⟨false, false, true, false⟩ (fun _ => [])
        "doc.pdf" "p/doc.pdf" "u3" 0
        ⟨.ok "Page text.", [.error "ocr boom"], [], .ok "", .ok [], []⟩
      = ([], [("doc.pdf", 1, "ocr boom")]) :=
  ⟨rfl, rfl⟩

/-- C5 as amended: A recognition failure is not swallowed: when OCR is
enabled and the OCR loop over the page's images fails with `e`, the whole
primary attempt fails with `e` (the primary text is discarded and the page
is decided by the fallback tier); without pdfplumber the page is skipped
with a per-page failure record holding `e`. -/
theorem ocr_failure_propagates_c5 (caps : Caps)
    (segment : String → List String) (docName docPath cid : String)
    (pageNo : Nat) (pd : PageData) (t0 e : String)
    (hocr : caps.hasOcr = true) (ht : pd.primaryText = .ok t0)
    (hf : ocrFold t0 pd.ocrImages = .error e) :
    primaryAttempt caps pd = .error e
    ∧ (caps.hasPlumber = false →
        processPage caps segment docName docPath cid pageNo pd
          = ([], [(docName, pageNo + 1, e)])) := by
  have h1 : primaryAttempt caps pd = .error e := by
    simp [primaryAttempt, ht, hocr, hf]
  refine ⟨h1, fun hpl => ?_⟩
  simp [processPage, extractPage, h1, hpl]

/-- Witness for C5 (amended) at a concrete page. -/
theorem ocr_failure_propagates_c5_witness :
    primaryAttempt ⟨false, false, true, false⟩
        ⟨.ok "T.", [.error "img err"], [], .ok "", .ok [], []⟩
      = .error "img err"
    ∧ processPage ⟨false, false, true, false⟩ (fun _ => []) "d" "p" "u6" 0
        ⟨.ok "T.", [.error "img err"], [], .ok "", .ok [], []⟩
      = ([], [("d", 1, "img err")]) :=
  ⟨(ocr_failure_propagates_c5 ⟨false, false, true, false⟩ (fun _ => [])
      "d" "p" "u6" 0 ⟨.ok "T.", [.error "img err"], [], .ok "", .ok [], []⟩
      "T." "img err" rfl rfl rfl).1,
   (ocr_failure_propagates_c5 ⟨false, false, true, false⟩ (fun _ => [])
      "d" "p" "u6" 0 ⟨.ok "T.", [.error "img err"], [], .ok "", .ok [], []⟩
      "T." "img err" rfl rfl rfl).2 rfl⟩

/-- C6 counterexample: the claim is false on the code — when the page's text comes from the
fallback path, a table-recovery error is not swallowed — it fails the whole
fallback attempt, so the page is skipped with a per-page failure record
combining the primary and the table-recovery errors. -/
theorem table_failure_cex_c6 :
    processPage ⟨false, true, false, true⟩ (fun _ => [])
        "doc.pdf" "p/doc.pdf" "u4" 0
        ⟨.error "fitz boom", [], [], .ok "Fallback text.",
          .error "tables boom", []⟩
      = ([], [("doc.pdf", 1, "fitz boom / tables boom")]) := rfl

/-- C6 as amended: Table-recovery failure is swallowed only on the
primary path, where the page keeps its text and the tables serialized
before the first failing table (the failure truncates the table list, it
never fails the attempt); on the fallback path a table-recovery error fails
the whole fallback attempt, so a page whose primary attempt failed with
`e1` is skipped with the combined record `"e1 / e"`. -/
theorem table_failure_paths_c6 (caps : Caps)
    (segment : String → List String) (docName docPath cid : String)
    (pageNo : Nat) (pd : PageData) (e : String)
    (htb : caps.hasTables = true) :
    (∀ t0 t, pd.primaryText = .ok t0 →
      (if caps.hasOcr then ocrFold t0 pd.ocrImages else .ok t0) = .ok t →
      primaryAttempt caps pd = .ok (t, camelotFold pd.primaryTables))
    ∧ (∀ pre rest, camelotFold (pre.map Except.ok ++ .error e :: rest) = pre)
    ∧ (∀ t0, pd.fallbackText = .ok t0 → pd.fallbackTables = .error e →
        fallbackAttempt caps pd = .error e)
    ∧ (∀ e1, caps.hasPlumber = true → primaryAttempt caps pd = .error e1 →
        fallbackAttempt caps pd = .error e →
        processPage caps segment docName docPath cid pageNo pd
          = ([], [(docName, pageNo + 1, e1 ++ " / " ++ e)])) := by
  refine ⟨?_, ?_, ?_, ?_⟩
  · intro t0 t ht hocr
    simp [primaryAttempt, ht, hocr, htb]
  · intro pre rest
    induction pre with
    | nil => rfl
    | cons x xs ih => rw [List.map_cons, List.cons_append, camelotFold, ih]
  · intro t0 ht hft
    simp [fallbackAttempt, ht, hft, htb]
  · intro e1 hpl hp hf
    simp [processPage, extractPage, hp, hpl, hf]

/-- Witness for C6 (amended) at a concrete page: a camelot table failure
after one serialized table truncates but does not fail the primary path,
while a pdfplumber table failure is fatal on the fallback path. -/
theorem table_failure_paths_c6_witness :
    primaryAttempt ⟨false, true, false, true⟩
        ⟨.ok "T.", [], [.ok "t1csv", .error "camelot boom"], .ok "F.",
          .error "camelot boom", []⟩
      = .ok ("T.", ["t1csv"])
    ∧ camelotFold ([("t1csv" : String)].map Except.ok
        ++ .error "camelot boom" :: []) = ["t1csv"]
    ∧ fallbackAttempt ⟨false, true, false, true⟩
        ⟨.ok "T.", [], [.ok "t1csv", .error "camelot boom"], .ok "F.",
          .error "camelot boom", []⟩
      = .error "camelot boom" :=
  ⟨(table_failure_paths_c6 ⟨false, true, false, true⟩ (fun _ => []) "d" "p"
      "u7" 0 ⟨.ok "T.", [], [.ok "t1csv", .error "camelot boom"], .ok "F.",
        .error "camelot boom", []⟩ "camelot boom" rfl).1 "T." "T." rfl rfl,
   (table_failure_paths_c6 ⟨false, true, false, true⟩ (fun _ => []) "d" "p"
      "u7" 0 ⟨.ok "T.", [], [.ok "t1csv", .error "camelot boom"], .ok "F.",
        .error "camelot boom", []⟩ "camelot boom" rfl).2.1 ["t1csv"] [],
   (table_failure_paths_c6 ⟨false, true, false, true⟩ (fun _ => []) "d" "p"
      "u7" 0 ⟨.ok "T.", [], [.ok "t1csv", .error "camelot boom"], .ok "F.",
        .error "camelot boom", []⟩ "camelot boom" rfl).2.2.1 "F." rfl rfl⟩

/-! ## Page partition: chunks xor one failure record (C2) -/

theorem pageChunks_page (cid docPath : String) (pageNo : Nat) (text : String)
    (sents tables : List String) :
    ∀ c ∈ pageChunks cid docPath pageNo text sents tables,
      List.lookup "page" c.loc = some (pageNo + 1) := by
  intro c hc
  rw [pageChunks, List.mem_append] at hc
  rcases hc with hc | hc
  · rw [textChunks] at hc
    split at hc
    · obtain ⟨i, _, rfl⟩ := List.mem_map.mp hc
      rfl
    · rw [List.mem_singleton] at hc
      subst hc
      rfl
  · rw [tableChunks] at hc
    obtain ⟨p, _, rfl⟩ := List.mem_map.mp hc
    rfl

theorem pageChunks_length_pos (cid docPath : String) (pageNo : Nat)
    (text : String) (sents tables : List String) :
    0 < (pageChunks cid docPath pageNo text sents tables).length := by
  rw [pageChunks, List.length_append]
  have h : 0 < (textChunks cid docPath pageNo text sents tables).length := by
    rw [textChunks]
    split
    · next hne =>
      rw [List.length_map, length_chunkStarts, stepVal]
      have hpos : 0 < sents.length := List.length_pos.mpr hne
      omega
    · simp
  omega

theorem processPage_chunk_page (caps : Caps) (segment : String → List String)
    (docName docPath cid : String) (pageNo : Nat) (pd : PageData) :
    ∀ c ∈ (processPage caps segment docName docPath cid pageNo pd).1,
      List.lookup "page" c.loc = some (pageNo + 1) := by
  intro c hc
  rw [processPage] at hc
  cases hE : extractPage caps pd with
  | done t tbls =>
    rw [hE] at hc
    exact pageChunks_page cid docPath pageNo t (segment t) tbls c hc
  | skipped e =>
    rw [hE] at hc
    cases hc

theorem processPage_fail_page (caps : Caps) (segment : String → List String)
    (docName docPath cid : String) (pageNo : Nat) (pd : PageData) :
    ∀ f ∈ (processPage caps segment docName docPath cid pageNo pd).2,
      f.2.1 = pageNo + 1 := by
  intro f hf
  rw [processPage] at hf
  cases hE : extractPage caps pd with
  | done t tbls =>
    rw [hE] at hf
    cases hf
  | skipped e =>
    rw [hE] at hf
    rw [List.mem_singleton] at hf
    subst hf
    rfl

theorem processPage_cases (caps : Caps) (segment : String → List String)
    (docName docPath cid : String) (pageNo : Nat) (pd : PageData) :
    (∃ e, processPage caps segment docName docPath cid pageNo pd
        = ([], [(docName, pageNo + 1, e)]))
    ∨ ((processPage caps segment docName docPath cid pageNo pd).2 = []
        ∧ 0 < (processPage caps segment docName docPath cid pageNo pd).1.length) := by
  rw [processPage]
  cases hE : extractPage caps pd with
  | skipped e => exact .inl ⟨e, rfl⟩
  | done t tbls =>
    exact .inr ⟨rfl, pageChunks_length_pos cid docPath pageNo t (segment t) tbls⟩

theorem processPages_page_lb (caps : Caps) (segment : String → List String)
    (docName docPath : String) (gen : Nat → String) :
    ∀ (pds : List PageData) (start : Nat),
      (∀ c ∈ (processPages caps segment docName docPath gen start pds).1,
        ∃ m, List.lookup "page" c.loc = some m ∧ start < m)
      ∧ (∀ f ∈ (processPages caps segment docName docPath gen start pds).2,
          start < f.2.1) := by
  intro pds
  induction pds with
  | nil => intro start; exact ⟨fun c hc => absurd hc (List.not_mem_nil c),
      fun f hf => absurd hf (List.not_mem_nil f)⟩
  | cons pd rest ih =>
    intro start
    constructor
    · intro c hc
      rw [processPages, List.mem_append] at hc
      rcases hc with hc | hc
      · exact ⟨start + 1,
          processPage_chunk_page caps segment docName docPath (gen start)
            start pd c hc, Nat.lt_succ_self start⟩
      · obtain ⟨m, hm, hlt⟩ := (ih (start + 1)).1 c hc
        exact ⟨m, hm, by omega⟩
    · intro f hf
      rw [processPages, List.mem_append] at hf
      rcases hf with hf | hf
      · rw [processPage_fail_page caps segment docName docPath (gen start)
          start pd f hf]
        exact Nat.lt_succ_self start
      · have := (ih (start + 1)).2 f hf
        omega

theorem processPages_count (caps : Caps) (segment : String → List String)
    (docName docPath : String) (gen : Nat → String) :
    ∀ (pds : List PageData) (start k : Nat), start ≤ k →
      k < start + pds.length →
      (0 < ((processPages caps segment docName docPath gen start pds).1.countP
            (fun c => List.lookup "page" c.loc == some (k + 1)))
        ∧ ((processPages caps segment docName docPath gen start pds).2.countP
            (fun f => f.2.1 == k + 1)) = 0)
      ∨ (((processPages caps segment docName docPath gen start pds).1.countP
            (fun c => List.lookup "page" c.loc == some (k + 1))) = 0
        ∧ ((processPages caps segment docName docPath gen start pds).2.countP
            (fun f => f.2.1 == k + 1)) = 1) := by
  intro pds
  induction pds with
  | nil => intro start k h1 h2; simp at h2; omega
  | cons pd rest ih =>
    intro start k h1 h2
    have hsplit :
        processPages caps segment docName docPath gen start (pd :: rest)
          = ((processPage caps segment docName docPath (gen start) start pd).1
              ++ (processPages caps segment docName docPath gen (start + 1) rest).1,
             (processPage caps segment docName docPath (gen start) start pd).2
              ++ (processPages caps segment docName docPath gen (start + 1) rest).2) := rfl
    rw [hsplit]
    simp only [List.countP_append]
    by_cases hk : k = start
    · subst hk
      have htail0c :
          ((processPages caps segment docName docPath gen (k + 1) rest).1.countP
            (fun c => List.lookup "page" c.loc == some (k + 1))) = 0 := by
        rw [List.countP_eq_zero]
        intro c hc
        obtain ⟨m, hm, hlt⟩ :=
          (processPages_page_lb caps segment docName docPath gen rest (k + 1)).1 c hc
        simp only [hm, beq_iff_eq, Option.some.injEq]
        omega
      have htail0f :
          ((processPages caps segment docName docPath gen (k + 1) rest).2.countP
            (fun f => f.2.1 == k + 1)) = 0 := by
        rw [List.countP_eq_zero]
        intro f hf
        have := (processPages_page_lb caps segment docName docPath gen rest (k + 1)).2 f hf
        simp only [beq_iff_eq]
        omega
      rw [htail0c, htail0f]
      rcases processPage_cases caps segment docName docPath (gen k) k pd with
        ⟨e, he⟩ | ⟨hf, hlen⟩
      · right
        rw [he]
        simp
      · left
        constructor
        · have hall :
              ((processPage caps segment docName docPath (gen k) k pd).1.countP
                (fun c => List.lookup "page" c.loc == some (k + 1)))
                = (processPage caps segment docName docPath (gen k) k pd).1.length := by
            rw [List.countP_eq_length]
            intro c hc
            rw [processPage_chunk_page caps segment docName docPath (gen k) k pd c hc]
            simp
          omega
        · rw [hf]
          rfl
    · have hk2 : start < k := by omega
      have hhead0c :
          ((processPage caps segment docName docPath (gen start) start pd).1.countP
            (fun c => List.lookup "page" c.loc == some (k + 1))) = 0 := by
        rw [List.countP_eq_zero]
        intro c hc
        rw [processPage_chunk_page caps segment docName docPath (gen start) start pd c hc]
        simp only [beq_iff_eq, Option.some.injEq]
        omega
      have hhead0f :
          ((processPage caps segment docName docPath (gen start) start pd).2.countP
            (fun f => f.2.1 == k + 1)) = 0 := by
        rw [List.countP_eq_zero]
        intro f hf
        rw [processPage_fail_page caps segment docName docPath (gen start) start pd f hf]
        simp only [beq_iff_eq]
        omega
      rw [hhead0c, hhead0f]
      have := ih (start + 1) k (by omega) (by simp at h2; omega)
      simpa using this

/-- C2: proved. For a document that opens successfully, every 0-based page index
`k` either contributes at least one chunk located on page `k+1` and no
per-page failure record, or contributes zero chunks and exactly one per-page
failure record for page `k+1` — never both, never neither. -/
theorem page_chunk_xor_failure_c2 (caps : Caps)
    (segment : String → List String) (gen : Nat → String) (d : DocInput)
    (out : List Chunk × List PageFailure)
    (hout : process_pdf caps segment gen d = .ok out)
    (k : Nat) (hk : k < d.pages.length) :
    (0 < out.1.countP (fun c => List.lookup "page" c.loc == some (k + 1))
      ∧ out.2.countP (fun f => f.2.1 == k + 1) = 0)
    ∨ (out.1.countP (fun c => List.lookup "page" c.loc == some (k + 1)) = 0
      ∧ out.2.countP (fun f => f.2.1 == k + 1) = 1) := by
  rw [process_pdf] at hout
  cases hO : d.openResult with
  | error e => rw [hO] at hout; cases hout
  | ok u =>
    rw [hO] at hout
    have hout2 : processPages caps segment d.name d.path gen 0 d.pages = out :=
      by cases hout; rfl
    rw [← hout2]
    exact processPages_count caps segment d.name d.path gen d.pages 0 k
      (Nat.zero_le k) (by omega)

/-- Witness for C2: a one-page document whose page succeeds with empty
segmentation contributes one raw-text chunk and no failure record. -/
theorem page_chunk_xor_failure_c2_witness :
    (0 < (([{ chunk_id := "u8", source := "pdf", doc_path := "p/w.pdf",
              loc := [("page", 1)], tables := [], elem_type := "text",
              table_no := none, text := "" }] : List Chunk).countP
          (fun c => List.lookup "page" c.loc == some (0 + 1)))
      ∧ (([] : List PageFailure).countP (fun f => f.2.1 == 0 + 1)) = 0)
    ∨ ((([{ chunk_id := "u8", source := "pdf", doc_path := "p/w.pdf",
            loc := [("page", 1)], tables := [], elem_type := "text",
            table_no := none, text := "" }] : List Chunk).countP
          (fun c => List.lookup "page" c.loc == some (0 + 1))) = 0
      ∧ (([] : List PageFailure).countP (fun f => f.2.1 == 0 + 1)) = 1) :=
  page_chunk_xor_failure_c2 ⟨false, false, false, false⟩ (fun _ => [])
    (fun _ => "u8") ⟨"w.pdf", "p/w.pdf", .ok (), [⟨.ok "", [], [], .ok "", .ok [], []⟩]⟩
    ([{ chunk_id := "u8", source := "pdf", doc_path := "p/w.pdf",
        loc := [("page", 1)], tables := [], elem_type := "text",
        table_no := none, text := "" }], []) rfl 0 (by decide)

/-! ## Aggregation: failure isolation and run totality (C3) -/

theorem foldl_aggStep_fields (rs : List (String ×
    Except String (List Chunk × List PageFailure))) :
    ∀ acc : RunOutput,
      (List.foldl aggStep acc rs).all_chunks
          = acc.all_chunks ++ (aggregate rs).all_chunks
      ∧ (List.foldl aggStep acc rs).skipped_pdfs
          = acc.skipped_pdfs ++ (aggregate rs).skipped_pdfs
      ∧ (List.foldl aggStep acc rs).skipped_pages
          = acc.skipped_pages ++ (aggregate rs).skipped_pages := by
  induction rs with
  | nil => intro acc; simp [aggregate]
  | cons r rest ih =>
    intro acc
    rw [aggregate, List.foldl_cons, List.foldl_cons]
    obtain ⟨h1, h2, h3⟩ := ih (aggStep acc r)
    obtain ⟨g1, g2, g3⟩ := ih (aggStep ⟨[], [], []⟩ r)
    rw [h1, h2, h3, g1, g2, g3]
    obtain ⟨name, res⟩ := r
    cases res with
    | ok pr =>
      refine ⟨?_, ?_, ?_⟩ <;> simp [aggStep]
    | error e =>
      refine ⟨?_, ?_, ?_⟩ <;> simp [aggStep]

theorem aggregate_append (xs ys : List (String ×
    Except String (List Chunk × List PageFailure))) :
    (aggregate (xs ++ ys)).all_chunks
        = (aggregate xs).all_chunks ++ (aggregate ys).all_chunks
    ∧ (aggregate (xs ++ ys)).skipped_pdfs
        = (aggregate xs).skipped_pdfs ++ (aggregate ys).skipped_pdfs
    ∧ (aggregate (xs ++ ys)).skipped_pages
        = (aggregate xs).skipped_pages ++ (aggregate ys).skipped_pages := by
  rw [aggregate, List.foldl_append]
  exact foldl_aggStep_fields ys (List.foldl aggStep ⟨[], [], []⟩ xs)

/-- C3: proved. Failure isolation and totality of the run: a task that raises
contributes exactly one whole-document record `(name, error)` and zero
chunks and zero per-page records, leaving every other task's contribution
unchanged; and when every task raises, the run still produces all three
artifacts — an empty chunk list, the full whole-document failure list, and
an empty per-page failure list. -/
theorem failure_isolation_c3
    (pre post : List (String × Except String (List Chunk × List PageFailure)))
    (n e : String) :
    (aggregate (pre ++ (n, Except.error e) :: post)).all_chunks
        = (aggregate (pre ++ post)).all_chunks
    ∧ (aggregate (pre ++ (n, Except.error e) :: post)).skipped_pages
        = (aggregate (pre ++ post)).skipped_pages
    ∧ (aggregate (pre ++ (n, Except.error e) :: post)).skipped_pdfs
        = (aggregate pre).skipped_pdfs
            ++ (n, e) :: (aggregate post).skipped_pdfs
    ∧ ∀ fails : List (String × String),
        (aggregate (fails.map (fun p => (p.1, Except.error p.2)))).all_chunks
            = []
        ∧ (aggregate (fails.map
            (fun p => (p.1, Except.error p.2)))).skipped_pdfs = fails
        ∧ (aggregate (fails.map
            (fun p => (p.1, Except.error p.2)))).skipped_pages = [] := by
  have hmid : pre ++ (n, Except.error e) :: post
      = pre ++ [(n, Except.error e)] ++ post := by simp
  have hsingle : aggregate [(n, Except.error e)]
      = ⟨[], [(n, e)], []⟩ := rfl
  obtain ⟨a1, a2, a3⟩ := aggregate_append (pre ++ [(n, Except.error e)]) post
  obtain ⟨b1, b2, b3⟩ := aggregate_append pre [(n, Except.error e)]
  obtain ⟨c1, c2, c3⟩ := aggregate_append pre post
  refine ⟨?_, ?_, ?_, ?_⟩
  · rw [hmid, a1, b1, hsingle, c1]
    simp
  · rw [hmid, a3, b3, hsingle, c3]
    simp
  · rw [hmid, a2, b2, hsingle]
    simp
  · intro fails
    induction fails with
    | nil => exact ⟨rfl, rfl, rfl⟩
    | cons p rest ihf =>
      obtain ⟨i1, i2, i3⟩ := ihf
      rw [List.map_cons]
      obtain ⟨d1, d2, d3⟩ := aggregate_append [(p.1, Except.error p.2)]
        (rest.map (fun q => (q.1, Except.error q.2)))
      simp only [List.singleton_append] at d1 d2 d3
      rw [d1, d2, d3, i1, i2, i3]
      refine ⟨?_, ?_, ?_⟩ <;> simp [aggregate, aggStep]

/-! ## Idempotence modulo chunk identifiers (C10) -/

theorem pageChunks_eraseId (cid cidB docPath : String) (pageNo : Nat)
    (text : String) (sents tables : List String) :
    (pageChunks cid docPath pageNo text sents tables).map eraseId
      = (pageChunks cidB docPath pageNo text sents tables).map eraseId := by
  rw [pageChunks, pageChunks, List.map_append, List.map_append]
  congr 1
  · rw [textChunks, textChunks]
    split
    · rw [List.map_map, List.map_map]
      exact List.map_congr_left (fun a _ => rfl)
    · rfl
  · rw [tableChunks, tableChunks, List.map_map, List.map_map]
    exact List.map_congr_left (fun a _ => rfl)

theorem processPage_eraseId (caps : Caps) (segment : String → List String)
    (docName docPath cid cidB : String) (pageNo : Nat) (pd : PageData) :
    ((processPage caps segment docName docPath cid pageNo pd).1).map eraseId
      = ((processPage caps segment docName docPath cidB pageNo pd).1).map eraseId
    ∧ (processPage caps segment docName docPath cid pageNo pd).2
      = (processPage caps segment docName docPath cidB pageNo pd).2 := by
  rw [processPage, processPage]
  cases hE : extractPage caps pd with
  | skipped e => exact ⟨rfl, rfl⟩
  | done t tbls =>
    exact ⟨pageChunks_eraseId cid cidB docPath pageNo t (segment t) tbls, rfl⟩

theorem processPages_eraseId (caps : Caps) (segment : String → List String)
    (docName docPath : String) (g gB : Nat → String) :
    ∀ (pds : List PageData) (start : Nat),
      ((processPages caps segment docName docPath g start pds).1).map eraseId
        = ((processPages caps segment docName docPath gB start pds).1).map eraseId
      ∧ (processPages caps segment docName docPath g start pds).2
        = (processPages caps segment docName docPath gB start pds).2 := by
  intro pds
  induction pds with
  | nil => intro start; exact ⟨rfl, rfl⟩
  | cons pd rest ih =>
    intro start
    obtain ⟨h1, h2⟩ := processPage_eraseId caps segment docName docPath
      (g start) (gB start) start pd
    obtain ⟨t1, t2⟩ := ih (start + 1)
    constructor
    · show ((processPage caps segment docName docPath (g start) start pd).1
          ++ (processPages caps segment docName docPath g (start + 1) rest).1).map eraseId
        = ((processPage caps segment docName docPath (gB start) start pd).1
          ++ (processPages caps segment docName docPath gB (start + 1) rest).1).map eraseId
      rw [List.map_append, List.map_append, h1, t1]
    · show (processPage caps segment docName docPath (g start) start pd).2
          ++ (processPages caps segment docName docPath g (start + 1) rest).2
        = (processPage caps segment docName docPath (gB start) start pd).2
          ++ (processPages caps segment docName docPath gB (start + 1) rest).2
      rw [h2, t2]

theorem process_pdf_eraseId (caps : Caps) (segment : String → List String)
    (gen genB : Nat → String) (d : DocInput) :
    (∃ e, process_pdf caps segment gen d = .error e
        ∧ process_pdf caps segment genB d = .error e)
    ∨ (∃ r rB, process_pdf caps segment gen d = .ok r
        ∧ process_pdf caps segment genB d = .ok rB
        ∧ r.1.map eraseId = rB.1.map eraseId ∧ r.2 = rB.2) := by
  rw [process_pdf, process_pdf]
  cases hO : d.openResult with
  | error e => exact .inl ⟨e, rfl, rfl⟩
  | ok u =>
    obtain ⟨h1, h2⟩ := processPages_eraseId caps segment d.name d.path gen genB
      d.pages 0
    exact .inr ⟨_, _, rfl, rfl, h1, h2⟩

theorem aggregate_cons_fields
    (r : String × Except String (List Chunk × List PageFailure))
    (rest : List (String × Except String (List Chunk × List PageFailure))) :
    (aggregate (r :: rest)).all_chunks
        = (aggStep ⟨[], [], []⟩ r).all_chunks ++ (aggregate rest).all_chunks
    ∧ (aggregate (r :: rest)).skipped_pdfs
        = (aggStep ⟨[], [], []⟩ r).skipped_pdfs
            ++ (aggregate rest).skipped_pdfs
    ∧ (aggregate (r :: rest)).skipped_pages
        = (aggStep ⟨[], [], []⟩ r).skipped_pages
            ++ (aggregate rest).skipped_pages := by
  rw [aggregate, List.foldl_cons]
  exact foldl_aggStep_fields rest (aggStep ⟨[], [], []⟩ r)

theorem runAll_eraseId_aux (caps : Caps) (segment : String → List String)
    (g gB : Nat → Nat → String) :
    ∀ (ds : List DocInput) (k : Nat),
      ((aggregate ((List.enumFrom k ds).map (fun kd =>
          (kd.2.name, process_pdf caps segment (g kd.1) kd.2)))).all_chunks).map
            eraseId
        = ((aggregate ((List.enumFrom k ds).map (fun kd =>
            (kd.2.name, process_pdf caps segment (gB kd.1) kd.2)))).all_chunks).map
              eraseId
      ∧ (aggregate ((List.enumFrom k ds).map (fun kd =>
          (kd.2.name, process_pdf caps segment (g kd.1) kd.2)))).skipped_pdfs
        = (aggregate ((List.enumFrom k ds).map (fun kd =>
            (kd.2.name, process_pdf caps segment (gB kd.1) kd.2)))).skipped_pdfs
      ∧ (aggregate ((List.enumFrom k ds).map (fun kd =>
          (kd.2.name, process_pdf caps segment (g kd.1) kd.2)))).skipped_pages
        = (aggregate ((List.enumFrom k ds).map (fun kd =>
            (kd.2.name, process_pdf caps segment (gB kd.1) kd.2)))).skipped_pages := by
  intro ds
  induction ds with
  | nil => intro k; exact ⟨rfl, rfl, rfl⟩
  | cons d rest ih =>
    intro k
    obtain ⟨t1, t2, t3⟩ := ih (k + 1)
    have hmapg : (List.enumFrom k (d :: rest)).map (fun kd =>
        (kd.2.name, process_pdf caps segment (g kd.1) kd.2))
        = (d.name, process_pdf caps segment (g k) d)
            :: (List.enumFrom (k + 1) rest).map (fun kd =>
                (kd.2.name, process_pdf caps segment (g kd.1) kd.2)) := rfl
    have hmapgB : (List.enumFrom k (d :: rest)).map (fun kd =>
        (kd.2.name, process_pdf caps segment (gB kd.1) kd.2))
        = (d.name, process_pdf caps segment (gB k) d)
            :: (List.enumFrom (k + 1) rest).map (fun kd =>
                (kd.2.name, process_pdf caps segment (gB kd.1) kd.2)) := rfl
    rw [hmapg, hmapgB]
    obtain ⟨d1, d2, d3⟩ := aggregate_cons_fields
      (d.name, process_pdf caps segment (g k) d)
      ((List.enumFrom (k + 1) rest).map (fun kd =>
        (kd.2.name, process_pdf caps segment (g kd.1) kd.2)))
    obtain ⟨e1, e2, e3⟩ := aggregate_cons_fields
      (d.name, process_pdf caps segment (gB k) d)
      ((List.enumFrom (k + 1) rest).map (fun kd =>
        (kd.2.name, process_pdf caps segment (gB kd.1) kd.2)))
    rw [d1, d2, d3, e1, e2, e3, List.map_append, List.map_append]
    rcases process_pdf_eraseId caps segment (g k) (gB k) d with
      ⟨e, he, heB⟩ | ⟨r, rB, hr, hrB, hch, hpg⟩
    · rw [he, heB]
      refine ⟨?_, ?_, ?_⟩ <;> simp [aggStep, t1, t2, t3]
    · rw [hr, hrB]
      refine ⟨?_, ?_, ?_⟩ <;> simp [aggStep, t1, t2, t3, hch, hpg]

/-- C10 as amended: Under deterministic extractors and unchanged input,
two runs that consume their document tasks in the same completion order
produce identical artifacts modulo `chunk_id` values: the chunk lists are
equal after erasing `chunk_id`, have equal length and order, and both
failure artifacts are identical.  (As the counterexample shows, the claim's
"same order" clause does not survive a different task completion order,
which the scheduler does not fix.) -/
theorem idempotent_mod_ids_c10 (caps : Caps) (segment : String → List String)
    (ds : List DocInput) (g gB : Nat → Nat → String) :
    ((runAll caps segment ds g).all_chunks).map eraseId
      = ((runAll caps segment ds gB).all_chunks).map eraseId
    ∧ (runAll caps segment ds g).all_chunks.length
      = (runAll caps segment ds gB).all_chunks.length
    ∧ (runAll caps segment ds g).skipped_pdfs
      = (runAll caps segment ds gB).skipped_pdfs
    ∧ (runAll caps segment ds g).skipped_pages
      = (runAll caps segment ds gB).skipped_pages := by
  obtain ⟨h1, h2, h3⟩ := runAll_eraseId_aux caps segment g gB ds 0
  refine ⟨h1, ?_, h2, h3⟩
  have hlen := congrArg List.length h1
  simpa using hlen

/-- C10 counterexample: the "same order" clause is false across completion
orders — the
same two documents, processed by runs whose tasks complete in opposite
orders, yield merged chunk lists that differ (even after erasing
`chunk_id`), because `main` consumes results in completion order. -/
theorem completion_order_cex_c10 :
    ((runAll ⟨false, false, false, false⟩ (fun _ => [])
        [⟨"a.pdf", "pa", .ok (), [⟨.ok "", [], [], .ok "", .ok [], []⟩]⟩,
         ⟨"b.pdf", "pb", .ok (), [⟨.ok "", [], [], .ok "", .ok [], []⟩]⟩]
        (fun _ _ => "u")).all_chunks).map eraseId
      ≠ ((runAll ⟨false, false, false, false⟩ (fun _ => [])
          [⟨"b.pdf", "pb", .ok (), [⟨.ok "", [], [], .ok "", .ok [], []⟩]⟩,
           ⟨"a.pdf", "pa", .ok (), [⟨.ok "", [], [], .ok "", .ok [], []⟩]⟩]
          (fun _ _ => "u")).all_chunks).map eraseId := by
  decide

end MediaMind
